import Mathlib

/-!
Shallow embedding of `src/libcore/time.rs` (the `Duration` type of the Rust
core library): the canonical `(secs, nanos)` representation, its constructors,
accessors, checked arithmetic, the iterator summation, and the `Debug`
formatter.  Machine integers are modelled as `Nat` together with explicit
checked-arithmetic helpers that mirror `u64::checked_add` / `checked_sub` /
`checked_mul`; all claims about live values carry the `nanos < NANOS_PER_SEC`
representation invariant stated in the source (`// Always 0 <= nanos <
NANOS_PER_SEC`).
-/

set_option autoImplicit false

/-- `const NANOS_PER_SEC: u32 = 1_000_000_000` from time.rs. -/
def NANOS_PER_SEC : Nat := 1000000000

/-- `const NANOS_PER_MILLI: u32 = 1_000_000` from time.rs. -/
def NANOS_PER_MILLI : Nat := 1000000

/-- `const NANOS_PER_MICRO: u32 = 1_000` from time.rs. -/
def NANOS_PER_MICRO : Nat := 1000

/-- `const MILLIS_PER_SEC: u64 = 1_000` from time.rs. -/
def MILLIS_PER_SEC : Nat := 1000

/-- `const MICROS_PER_SEC: u64 = 1_000_000` from time.rs. -/
def MICROS_PER_SEC : Nat := 1000000

/-- `u64::MAX` = 2^64 - 1, the bound enforced by the checked u64 operations. -/
def U64_MAX : Nat := 18446744073709551615

/-- 2^32, the exclusive bound of a `u32` value. -/
def U32_BOUND : Nat := 4294967296

/-- `u64::checked_add`: `Some (a + b)` unless the sum leaves the u64 range. -/
def u64CheckedAdd (a b : Nat) : Option Nat :=
  if a + b ≤ U64_MAX then some (a + b) else none

/-- `u64::checked_sub`: `Some (a - b)` unless the difference would be negative. -/
def u64CheckedSub (a b : Nat) : Option Nat :=
  if b ≤ a then some (a - b) else none

/-- `u64::checked_mul`: `Some (a * b)` unless the product leaves the u64 range. -/
def u64CheckedMul (a b : Nat) : Option Nat :=
  if a * b ≤ U64_MAX then some (a * b) else none

/-- `pub struct Duration { secs: u64, nanos: u32 }` from time.rs.  The fields
are `Nat`; the u64/u32 ranges and the `nanos < NANOS_PER_SEC` invariant appear
as hypotheses of the theorems. -/
structure Duration where
  secs : Nat
  nanos : Nat
deriving DecidableEq

namespace Duration

/-- `Duration::new(secs, nanos)`.  The source carries `nanos / NANOS_PER_SEC`
into `secs` with `checked_add(..).expect(..)`; the panic is modelled as
`none`. -/
def new (secs nanos : Nat) : Option Duration :=
  match u64CheckedAdd secs (nanos / NANOS_PER_SEC) with
  | some s => some ⟨s, nanos % NANOS_PER_SEC⟩
  | none => none

/-- `Duration::from_secs`. -/
def from_secs (secs : Nat) : Duration := ⟨secs, 0⟩

/-- `Duration::from_millis`. -/
def from_millis (millis : Nat) : Duration :=
  ⟨millis / MILLIS_PER_SEC, (millis % MILLIS_PER_SEC) * NANOS_PER_MILLI⟩

/-- `Duration::from_micros`. -/
def from_micros (micros : Nat) : Duration :=
  ⟨micros / MICROS_PER_SEC, (micros % MICROS_PER_SEC) * NANOS_PER_MICRO⟩

/-- `Duration::from_nanos`. -/
def from_nanos (nanos : Nat) : Duration :=
  ⟨nanos / NANOS_PER_SEC, nanos % NANOS_PER_SEC⟩

/-- `Duration::as_secs`. -/
def as_secs (d : Duration) : Nat := d.secs

/-- `Duration::subsec_nanos`. -/
def subsec_nanos (d : Duration) : Nat := d.nanos

/-- `Duration::as_nanos`: `secs as u128 * NANOS_PER_SEC as u128 + nanos as
u128` (the u128 arithmetic cannot overflow, so plain `Nat` is exact). -/
def as_nanos (d : Duration) : Nat := d.secs * NANOS_PER_SEC + d.nanos

/-- `Duration::checked_add` from time.rs. -/
def checked_add (a rhs : Duration) : Option Duration :=
  match u64CheckedAdd a.secs rhs.secs with
  | some secs0 =>
    let nanos0 := a.nanos + rhs.nanos
    if NANOS_PER_SEC ≤ nanos0 then
      match u64CheckedAdd secs0 1 with
      | some secs1 => some ⟨secs1, nanos0 - NANOS_PER_SEC⟩
      | none => none
    else
      some ⟨secs0, nanos0⟩
  | none => none

/-- `Duration::checked_sub` from time.rs. -/
def checked_sub (a rhs : Duration) : Option Duration :=
  match u64CheckedSub a.secs rhs.secs with
  | some secs0 =>
    if rhs.nanos ≤ a.nanos then
      some ⟨secs0, a.nanos - rhs.nanos⟩
    else
      match u64CheckedSub secs0 1 with
      | some secs1 => some ⟨secs1, a.nanos + NANOS_PER_SEC - rhs.nanos⟩
      | none => none
  | none => none

/-- `Duration::checked_mul` from time.rs.  `self.nanos as u64 * rhs as u64`
cannot wrap (both factors are below 2^32), so the `Nat` product is exact. -/
def checked_mul (a : Duration) (rhs : Nat) : Option Duration :=
  let total_nanos := a.nanos * rhs
  let extra_secs := total_nanos / NANOS_PER_SEC
  let nanos := total_nanos % NANOS_PER_SEC
  match u64CheckedMul a.secs rhs with
  | some s =>
    match u64CheckedAdd s extra_secs with
    | some secs => some ⟨secs, nanos⟩
    | none => none
  | none => none

/-- `Duration::checked_div` from time.rs. -/
def checked_div (a : Duration) (rhs : Nat) : Option Duration :=
  if rhs ≠ 0 then
    let secs := a.secs / rhs
    let carry := a.secs - secs * rhs
    let extra_nanos := carry * NANOS_PER_SEC / rhs
    let nanos := a.nanos / rhs + extra_nanos
    some ⟨secs, nanos⟩
  else
    none

end Duration

/-- The loop body of the `sum_durations!` macro: the running state is
`(total_secs, total_nanos)`; each entry adds its `secs` with a checked (fatal
on overflow, modelled `none`) addition, and adds its `nanos` to the lazy
nanosecond accumulator, folding the accumulated carry into `total_secs` only
when the u64 nanosecond accumulator itself would overflow. -/
def sum_loop : List Duration → Nat → Nat → Option (Nat × Nat)
  | [], total_secs, total_nanos => some (total_secs, total_nanos)
  | entry :: rest, total_secs, total_nanos =>
    match u64CheckedAdd total_secs entry.secs with
    | none => none
    | some ts =>
      match u64CheckedAdd total_nanos entry.nanos with
      | some tn => sum_loop rest ts tn
      | none =>
        match u64CheckedAdd ts (total_nanos / NANOS_PER_SEC) with
        | none => none
        | some ts2 => sum_loop rest ts2 (total_nanos % NANOS_PER_SEC + entry.nanos)

/-- `sum_durations!` from time.rs (the body of `impl Sum for Duration`),
over a list of durations: run the loop from `(0, 0)`, then fold the final
nanosecond carry into the seconds (checked, fatal on overflow → `none`). -/
def sum_durations (l : List Duration) : Option Duration :=
  match sum_loop l 0 0 with
  | none => none
  | some (ts, tn) =>
    match u64CheckedAdd ts (tn / NANOS_PER_SEC) with
    | none => none
    | some ts2 => some ⟨ts2, tn % NANOS_PER_SEC⟩

/-- Total nanoseconds of a list of durations (specification-side measure for
the summation claims). -/
def totalNanosList (l : List Duration) : Nat := (l.map Duration.as_nanos).sum

/-- Left fold of pairwise `checked_add` over a list, starting from the zero
duration: the per-step-carry reference implementation of `Sum`. -/
def fold_add (l : List Duration) : Option Duration :=
  l.foldl (fun acc d => acc.bind fun x => x.checked_add d) (some ⟨0, 0⟩)

/-- The digit-writing loop of `fmt_decimal` in the `Debug` impl of time.rs:
while `fractional_part > 0` and fewer than `plimit` digits were written, emit
the digit `fractional_part / divisor`, then reduce `fractional_part` modulo
`divisor` and divide `divisor` by 10.  The buffer holds at most 9 digits, so
the recursion is bounded by a fuel of 9 (for the in-range call sites
`fractional_part < 10 * divisor ≤ 10^9` the loop always terminates with
`fractional_part = 0` within 9 steps).  Returns the digits written and the
final `fractional_part`, `divisor` and position. -/
def decLoop : Nat → Nat → Nat → Nat → Nat → List Nat × Nat × Nat × Nat
  | 0, pos, _, fp, dvs => ([], fp, dvs, pos)
  | fuel + 1, pos, plimit, fp, dvs =>
    if 0 < fp ∧ pos < plimit then
      let r := decLoop fuel (pos + 1) plimit (fp % dvs) (dvs / 10)
      (fp / dvs :: r.1, r.2)
    else
      ([], fp, dvs, pos)

/-- The round-up pass of `fmt_decimal`: walk the written digits backwards with
a carry, incrementing a digit below 9 (clearing the carry) and turning a 9
into 0 (keeping it).  Returns the rounded digits and whether the carry ran off
the front (in which case the integer part is incremented). -/
def roundUp : List Nat → List Nat × Bool
  | [] => ([], true)
  | d :: ds =>
    let r := roundUp ds
    if r.2 then
      if d < 9 then ((d + 1) :: r.1, false) else (0 :: r.1, true)
    else
      (d :: r.1, false)

/-- `fmt_decimal(f, integer_part, fractional_part, divisor)` from the `Debug`
impl in time.rs, as a pure string function of the formatter's optional
precision: write up to `precision` (default 9) fractional digits, round the
kept digits half-up against the remaining fraction, pick the printed digit
count (`min precision 9`, or the number of written digits when no precision
was given), pad with zeros up to the requested precision, and omit the
decimal point when no digit is printed. -/
def fmt_decimal (precision : Option Nat) (integer_part fractional_part divisor : Nat) :
    String :=
  let plimit := precision.getD 9
  let r := decLoop 9 0 plimit fractional_part divisor
  let digits := r.1
  let fp := r.2.1
  let dvs := r.2.2.1
  let pos := r.2.2.2
  let rr := if 0 < fp ∧ dvs * 5 ≤ fp then roundUp digits else (digits, false)
  let ip := if rr.2 then integer_part + 1 else integer_part
  let theEnd := match precision with
    | some p => min p 9
    | none => pos
  if theEnd = 0 then
    toString ip
  else
    let padded := (rr.1 ++ List.replicate 9 0).take theEnd
    let w := precision.getD pos
    toString ip ++ "." ++ String.mk (padded.map Nat.digitChar) ++
      String.mk (List.replicate (w - theEnd) '0')

/-- `impl fmt::Debug for Duration` from time.rs: an optional leading "+" when
the sign flag is set, then `fmt_decimal` on the adaptively selected unit —
seconds when `secs > 0`, else milliseconds when `nanos ≥ 1_000_000`, else
microseconds when `nanos ≥ 1_000`, else nanoseconds — followed by the unit
string. -/
def fmtDuration (precision : Option Nat) (signPlus : Bool) (d : Duration) : String :=
  let sign := if signPlus then "+" else ""
  if 0 < d.secs then
    sign ++ fmt_decimal precision d.secs d.nanos 100000000 ++ "s"
  else if 1000000 ≤ d.nanos then
    sign ++ fmt_decimal precision (d.nanos / 1000000) (d.nanos % 1000000) 100000 ++ "ms"
  else if 1000 ≤ d.nanos then
    sign ++ fmt_decimal precision (d.nanos / 1000) (d.nanos % 1000) 100 ++ "µs"
  else
    sign ++ fmt_decimal precision d.nanos 0 1 ++ "ns"

-- sanity checks of the embedding against the doctests in time.rs
example : Duration.checked_add ⟨0, 0⟩ ⟨0, 1⟩ = some ⟨0, 1⟩ := by decide
example : Duration.checked_add ⟨1, 0⟩ ⟨U64_MAX, 0⟩ = none := by decide
example : Duration.checked_sub ⟨0, 1⟩ ⟨0, 0⟩ = some ⟨0, 1⟩ := by decide
example : Duration.checked_sub ⟨0, 0⟩ ⟨0, 1⟩ = none := by decide
example : Duration.checked_mul ⟨0, 500000001⟩ 2 = some ⟨1, 2⟩ := by decide
example : Duration.checked_mul ⟨U64_MAX - 1, 0⟩ 2 = none := by decide
example : Duration.checked_div ⟨2, 0⟩ 2 = some ⟨1, 0⟩ := by decide
example : Duration.checked_div ⟨1, 0⟩ 2 = some ⟨0, 500000000⟩ := by decide
example : Duration.checked_div ⟨2, 0⟩ 0 = none := by decide
example : Duration.from_millis 2569 = ⟨2, 569000000⟩ := by decide
example : Duration.from_nanos 1000000123 = ⟨1, 123⟩ := by decide
example : sum_durations [⟨1, 0⟩, ⟨1, 0⟩, ⟨1, 0⟩] = some ⟨3, 0⟩ := by decide
example : sum_durations [] = some ⟨0, 0⟩ := by decide
example : fold_add [⟨1, 600000000⟩, ⟨2, 700000000⟩] = some ⟨4, 300000000⟩ := by decide
example : fmtDuration none false ⟨0, 1234⟩ = "1.234µs" := by decide
example : fmtDuration (some 2) false ⟨5, 730023852⟩ = "5.73s" := by decide
example : fmtDuration none false ⟨1, 0⟩ = "1s" := by decide
example : fmtDuration none false ⟨0, 0⟩ = "0ns" := by decide
example : fmtDuration none false ⟨0, 2500000⟩ = "2.5ms" := by decide
example : fmtDuration (some 0) false ⟨1, 500000000⟩ = "2s" := by decide
example : fmtDuration (some 0) false ⟨1, 499999999⟩ = "1s" := by decide
example : fmtDuration (some 2) false ⟨1, 999000000⟩ = "2.00s" := by decide
example : fmtDuration (some 4) false ⟨0, 1234⟩ = "1.2340µs" := by decide
example : fmtDuration none true ⟨1, 0⟩ = "+1s" := by decide

/-! ## General lemmas about the embedded operations -/

theorem div_add_div_le (x y n : Nat) (hn : 0 < n) : x / n + y / n ≤ (x + y) / n := by
  rw [Nat.add_div hn]
  split <;> omega

theorem add_div_le_succ (x y n : Nat) (hn : 0 < n) : (x + y) / n ≤ x / n + y / n + 1 := by
  rw [Nat.add_div hn]
  split <;> omega

theorem as_nanos_from_nanos (n : Nat) : (Duration.from_nanos n).as_nanos = n := by
  simp only [Duration.from_nanos, Duration.as_nanos, NANOS_PER_SEC]
  omega

theorem from_nanos_of_canonical (d : Duration) (hd : d.nanos < NANOS_PER_SEC) :
    Duration.from_nanos d.as_nanos = d := by
  obtain ⟨s, n⟩ := d
  simp only [Duration.from_nanos, Duration.as_nanos, NANOS_PER_SEC,
    Duration.mk.injEq] at *
  omega

theorem from_nanos_canonical (n : Nat) : (Duration.from_nanos n).nanos < NANOS_PER_SEC := by
  simp only [Duration.from_nanos, NANOS_PER_SEC]
  omega

/-- `checked_add` on canonical operands is exactly: normalize the sum of the
total nanosecond counts, failing precisely when the normalized second count
leaves the u64 range. -/
theorem checked_add_eq (a b : Duration) (ha : a.nanos < NANOS_PER_SEC)
    (hb : b.nanos < NANOS_PER_SEC) :
    a.checked_add b =
      if (a.as_nanos + b.as_nanos) / NANOS_PER_SEC ≤ U64_MAX then
        some (Duration.from_nanos (a.as_nanos + b.as_nanos))
      else none := by
  obtain ⟨sa, na⟩ := a
  obtain ⟨sb, nb⟩ := b
  simp only [Duration.as_nanos, NANOS_PER_SEC, U64_MAX] at *
  by_cases h1 : sa + sb ≤ 18446744073709551615
  · by_cases h2 : 1000000000 ≤ na + nb
    · by_cases h3 : sa + sb + 1 ≤ 18446744073709551615
      · have hstep : Duration.checked_add ⟨sa, na⟩ ⟨sb, nb⟩
            = some ⟨sa + sb + 1, na + nb - 1000000000⟩ := by
          simp only [Duration.checked_add, u64CheckedAdd, NANOS_PER_SEC, U64_MAX,
            if_pos h1, if_pos h2, if_pos h3]
        rw [hstep, if_pos (by omega : (sa * 1000000000 + na + (sb * 1000000000 + nb))
          / 1000000000 ≤ 18446744073709551615)]
        simp only [Duration.from_nanos, NANOS_PER_SEC, Option.some.injEq, Duration.mk.injEq]
        omega
      · have hstep : Duration.checked_add ⟨sa, na⟩ ⟨sb, nb⟩ = none := by
          simp only [Duration.checked_add, u64CheckedAdd, NANOS_PER_SEC, U64_MAX,
            if_pos h1, if_pos h2, if_neg h3]
        rw [hstep, if_neg (by omega : ¬ (sa * 1000000000 + na + (sb * 1000000000 + nb))
          / 1000000000 ≤ 18446744073709551615)]
    · have hstep : Duration.checked_add ⟨sa, na⟩ ⟨sb, nb⟩
          = some ⟨sa + sb, na + nb⟩ := by
        simp only [Duration.checked_add, u64CheckedAdd, NANOS_PER_SEC, U64_MAX,
          if_pos h1, if_neg h2]
      rw [hstep, if_pos (by omega : (sa * 1000000000 + na + (sb * 1000000000 + nb))
        / 1000000000 ≤ 18446744073709551615)]
      simp only [Duration.from_nanos, NANOS_PER_SEC, Option.some.injEq, Duration.mk.injEq]
      omega
  · have hstep : Duration.checked_add ⟨sa, na⟩ ⟨sb, nb⟩ = none := by
      simp only [Duration.checked_add, u64CheckedAdd, NANOS_PER_SEC, U64_MAX, if_neg h1]
    rw [hstep, if_neg (by omega : ¬ (sa * 1000000000 + na + (sb * 1000000000 + nb))
      / 1000000000 ≤ 18446744073709551615)]

/-- `checked_sub` on canonical operands is exactly: normalize the difference
of the total nanosecond counts, failing precisely when the subtrahend is the
larger total. -/
theorem checked_sub_eq (a b : Duration) (ha : a.nanos < NANOS_PER_SEC)
    (hb : b.nanos < NANOS_PER_SEC) :
    a.checked_sub b =
      if b.as_nanos ≤ a.as_nanos then
        some (Duration.from_nanos (a.as_nanos - b.as_nanos))
      else none := by
  obtain ⟨sa, na⟩ := a
  obtain ⟨sb, nb⟩ := b
  simp only [Duration.as_nanos, NANOS_PER_SEC, U64_MAX] at *
  by_cases h1 : sb ≤ sa
  · by_cases h2 : nb ≤ na
    · have hstep : Duration.checked_sub ⟨sa, na⟩ ⟨sb, nb⟩
          = some ⟨sa - sb, na - nb⟩ := by
        simp only [Duration.checked_sub, u64CheckedSub, NANOS_PER_SEC, U64_MAX,
          if_pos h1, if_pos h2]
      rw [hstep, if_pos (by omega : sb * 1000000000 + nb ≤ sa * 1000000000 + na)]
      simp only [Duration.from_nanos, NANOS_PER_SEC, Option.some.injEq, Duration.mk.injEq]
      omega
    · by_cases h3 : 1 ≤ sa - sb
      · have hstep : Duration.checked_sub ⟨sa, na⟩ ⟨sb, nb⟩
            = some ⟨sa - sb - 1, na + 1000000000 - nb⟩ := by
          simp only [Duration.checked_sub, u64CheckedSub, NANOS_PER_SEC, U64_MAX,
            if_pos h1, if_neg h2, if_pos h3]
        rw [hstep, if_pos (by omega : sb * 1000000000 + nb ≤ sa * 1000000000 + na)]
        simp only [Duration.from_nanos, NANOS_PER_SEC, Option.some.injEq, Duration.mk.injEq]
        omega
      · have hstep : Duration.checked_sub ⟨sa, na⟩ ⟨sb, nb⟩ = none := by
          simp only [Duration.checked_sub, u64CheckedSub, NANOS_PER_SEC, U64_MAX,
            if_pos h1, if_neg h2, if_neg h3]
        rw [hstep, if_neg (by omega : ¬ sb * 1000000000 + nb ≤ sa * 1000000000 + na)]
  · have hstep : Duration.checked_sub ⟨sa, na⟩ ⟨sb, nb⟩ = none := by
      simp only [Duration.checked_sub, u64CheckedSub, NANOS_PER_SEC, U64_MAX, if_neg h1]
    rw [hstep, if_neg (by omega : ¬ sb * 1000000000 + nb ≤ sa * 1000000000 + na)]

/-- `checked_mul` is exactly: normalize the product of the total nanosecond
count with the scalar, failing precisely when the normalized second count
leaves the u64 range. -/
theorem checked_mul_eq (a : Duration) (k : Nat) :
    a.checked_mul k =
      if (a.as_nanos * k) / NANOS_PER_SEC ≤ U64_MAX then
        some (Duration.from_nanos (a.as_nanos * k))
      else none := by
  obtain ⟨s, n⟩ := a
  have key : Duration.as_nanos ⟨s, n⟩ * k = 1000000000 * (s * k) + n * k := by
    simp only [Duration.as_nanos, NANOS_PER_SEC]
    ring
  rw [key]
  simp only [NANOS_PER_SEC, U64_MAX,
    Nat.mul_add_div (by norm_num : (0 : Nat) < 1000000000)]
  by_cases h1 : s * k ≤ 18446744073709551615
  · by_cases h2 : s * k + n * k / 1000000000 ≤ 18446744073709551615
    · have hstep : Duration.checked_mul ⟨s, n⟩ k
          = some ⟨s * k + n * k / 1000000000, n * k % 1000000000⟩ := by
        simp only [Duration.checked_mul, u64CheckedMul, u64CheckedAdd, NANOS_PER_SEC,
          U64_MAX, if_pos h1, if_pos h2]
      rw [hstep, if_pos h2]
      simp only [Duration.from_nanos, NANOS_PER_SEC, Option.some.injEq, Duration.mk.injEq,
        Nat.mul_add_div (by norm_num : (0 : Nat) < 1000000000), Nat.mul_add_mod]
    · have hstep : Duration.checked_mul ⟨s, n⟩ k = none := by
        simp only [Duration.checked_mul, u64CheckedMul, u64CheckedAdd, NANOS_PER_SEC,
          U64_MAX, if_pos h1, if_neg h2]
      rw [hstep, if_neg h2]
  · have h2 : ¬ s * k + n * k / 1000000000 ≤ 18446744073709551615 := by omega
    have hstep : Duration.checked_mul ⟨s, n⟩ k = none := by
      simp only [Duration.checked_mul, u64CheckedMul, NANOS_PER_SEC, U64_MAX, if_neg h1]
    rw [hstep, if_neg h2]

/-- `checked_div` with a nonzero divisor: the `carry` subexpression of the
source is the seconds remainder, so the result is `⟨secs / n, nanos / n +
secs % n * NANOS_PER_SEC / n⟩`. -/
theorem checked_div_some (d : Duration) (n : Nat) (hn : n ≠ 0) :
    d.checked_div n = some ⟨d.secs / n, d.nanos / n + d.secs % n * NANOS_PER_SEC / n⟩ := by
  obtain ⟨s, nn⟩ := d
  have hmod : s - s / n * n = s % n := by
    have h1 := Nat.div_add_mod s n
    have h2 : s / n * n = n * (s / n) := Nat.mul_comm _ _
    omega
  simp only [Duration.checked_div, if_pos hn, hmod]

/-- The nanosecond field produced by `checked_div` on a canonical duration is
itself canonical (this is the source's `debug_assert!(nanos < NANOS_PER_SEC)`). -/
theorem checked_div_nanos_lt (d : Duration) (n : Nat) (hd : d.nanos < NANOS_PER_SEC)
    (hn : n ≠ 0) :
    d.nanos / n + d.secs % n * NANOS_PER_SEC / n < NANOS_PER_SEC := by
  have hn0 : 0 < n := Nat.pos_of_ne_zero hn
  have h1 : d.secs % n < n := Nat.mod_lt _ hn0
  have hsum := div_add_div_le d.nanos (d.secs % n * NANOS_PER_SEC) n hn0
  have hlt : (d.nanos + d.secs % n * NANOS_PER_SEC) / n < NANOS_PER_SEC := by
    rw [Nat.div_lt_iff_lt_mul hn0]
    simp only [NANOS_PER_SEC] at *
    omega
  simp only [NANOS_PER_SEC] at *
  omega

/-- The total nanosecond count of the `checked_div` result: it is the floored
exact quotient of the dividend total, or exactly one below it (the seconds
remainder and the nanosecond field are truncated separately). -/
theorem checked_div_as_nanos (d : Duration) (n : Nat) (hn : n ≠ 0) :
    (Duration.mk (d.secs / n) (d.nanos / n + d.secs % n * NANOS_PER_SEC / n)).as_nanos
        = d.as_nanos / n
      ∨ (Duration.mk (d.secs / n) (d.nanos / n + d.secs % n * NANOS_PER_SEC / n)).as_nanos
        = d.as_nanos / n - 1 := by
  obtain ⟨s, nn⟩ := d
  have hn0 : 0 < n := Nat.pos_of_ne_zero hn
  have h0 : s * 1000000000 + nn
      = n * (s / n * 1000000000) + (s % n * 1000000000 + nn) := by
    calc s * 1000000000 + nn
        = (n * (s / n) + s % n) * 1000000000 + nn := by rw [Nat.div_add_mod]
      _ = n * (s / n * 1000000000) + (s % n * 1000000000 + nn) := by ring
  have hrw : (s * 1000000000 + nn) / n
      = s / n * 1000000000 + (s % n * 1000000000 + nn) / n := by
    rw [h0, Nat.mul_add_div hn0]
  have hlow := div_add_div_le (s % n * 1000000000) nn n hn0
  have hhigh := add_div_le_succ (s % n * 1000000000) nn n hn0
  simp only [Duration.as_nanos, NANOS_PER_SEC]
  rw [hrw]
  rcases Nat.lt_or_ge (s % n * 1000000000 / n + nn / n) ((s % n * 1000000000 + nn) / n)
    with h | h
  · have hv : (s % n * 1000000000 + nn) / n = s % n * 1000000000 / n + nn / n + 1 :=
      Nat.le_antisymm hhigh h
    rw [hv]
    right
    generalize s / n = w
    generalize s % n * 1000000000 / n = p
    generalize nn / n = q
    omega
  · have hv : (s % n * 1000000000 + nn) / n = s % n * 1000000000 / n + nn / n :=
      Nat.le_antisymm h hlow
    rw [hv]
    left
    generalize s / n = w
    generalize s % n * 1000000000 / n = p
    generalize nn / n = q
    omega

theorem totalNanosList_cons (d : Duration) (l : List Duration) :
    totalNanosList (d :: l) = d.as_nanos + totalNanosList l := by
  simp [totalNanosList]

/-- Folding pairwise `checked_add` from any canonical accumulator succeeds and
computes the normalized grand total, provided the grand total's second count
fits in a u64. -/
theorem fold_add_general (l : List Duration) : ∀ acc : Duration,
    acc.nanos < NANOS_PER_SEC → (∀ d ∈ l, d.nanos < NANOS_PER_SEC) →
    (acc.as_nanos + totalNanosList l) / NANOS_PER_SEC ≤ U64_MAX →
    l.foldl (fun acc d => acc.bind fun x => x.checked_add d) (some acc)
      = some (Duration.from_nanos (acc.as_nanos + totalNanosList l)) := by
  induction l with
  | nil =>
    intro acc hacc _ _
    simp only [List.foldl_nil, totalNanosList, List.map_nil, List.sum_nil, Nat.add_zero]
    rw [from_nanos_of_canonical acc hacc]
  | cons d t ih =>
    intro acc hacc hl h
    have hd : d.nanos < NANOS_PER_SEC := hl d (List.mem_cons_self d t)
    have ht : ∀ x ∈ t, x.nanos < NANOS_PER_SEC := fun x hx =>
      hl x (List.mem_cons_of_mem d hx)
    have htot : totalNanosList (d :: t) = d.as_nanos + totalNanosList t :=
      totalNanosList_cons d t
    rw [List.foldl_cons]
    have hred : ((some acc).bind fun x => x.checked_add d) = acc.checked_add d := rfl
    rw [hred]
    have hcond : (acc.as_nanos + d.as_nanos) / NANOS_PER_SEC ≤ U64_MAX := by
      refine le_trans (Nat.div_le_div_right ?_) h
      rw [htot]
      omega
    rw [checked_add_eq acc d hacc hd, if_pos hcond]
    have h2 : ((Duration.from_nanos (acc.as_nanos + d.as_nanos)).as_nanos
        + totalNanosList t) / NANOS_PER_SEC ≤ U64_MAX := by
      rw [as_nanos_from_nanos, Nat.add_assoc, ← htot]
      exact h
    rw [ih (Duration.from_nanos (acc.as_nanos + d.as_nanos))
      (from_nanos_canonical _) ht h2, as_nanos_from_nanos, htot, Nat.add_assoc]

/-- The `sum_durations!` loop never hits its overflow aborts and maintains
`total_secs * NANOS_PER_SEC + total_nanos` as the running grand total, as long
as the grand total's second count fits in a u64. -/
theorem sum_loop_general (l : List Duration) : ∀ ts tn : Nat,
    (ts * NANOS_PER_SEC + tn + totalNanosList l) / NANOS_PER_SEC ≤ U64_MAX →
    ∃ ts2 tn2, sum_loop l ts tn = some (ts2, tn2) ∧
      ts2 * NANOS_PER_SEC + tn2 = ts * NANOS_PER_SEC + tn + totalNanosList l := by
  have hk : 0 < NANOS_PER_SEC := by simp [NANOS_PER_SEC]
  induction l with
  | nil =>
    intro ts tn _
    exact ⟨ts, tn, rfl, by simp [totalNanosList]⟩
  | cons d t ih =>
    intro ts tn h
    have htot : totalNanosList (d :: t) = d.as_nanos + totalNanosList t :=
      totalNanosList_cons d t
    have h1 : ts + d.secs ≤ U64_MAX := by
      have hx : (ts + d.secs) * NANOS_PER_SEC
          ≤ ts * NANOS_PER_SEC + tn + totalNanosList (d :: t) := by
        rw [htot]
        simp only [Duration.as_nanos, NANOS_PER_SEC]
        omega
      exact le_trans ((Nat.le_div_iff_mul_le hk).mpr hx) h
    simp only [sum_loop, u64CheckedAdd, if_pos h1]
    by_cases h2 : tn + d.nanos ≤ U64_MAX
    · rw [if_pos h2]
      have harg : (ts + d.secs) * NANOS_PER_SEC + (tn + d.nanos) + totalNanosList t
          = ts * NANOS_PER_SEC + tn + totalNanosList (d :: t) := by
        rw [htot]
        simp only [Duration.as_nanos, NANOS_PER_SEC]
        ring
      obtain ⟨ts2, tn2, he, hsum⟩ := ih (ts + d.secs) (tn + d.nanos) (by rw [harg]; exact h)
      exact ⟨ts2, tn2, he, hsum.trans harg⟩
    · rw [if_neg h2]
      have h3 : ts + d.secs + tn / NANOS_PER_SEC ≤ U64_MAX := by
        have hx : (ts + d.secs + tn / NANOS_PER_SEC) * NANOS_PER_SEC
            ≤ ts * NANOS_PER_SEC + tn + totalNanosList (d :: t) := by
          rw [htot]
          simp only [Duration.as_nanos, NANOS_PER_SEC]
          omega
        exact le_trans ((Nat.le_div_iff_mul_le hk).mpr hx) h
      rw [if_pos h3]
      have harg : (ts + d.secs + tn / NANOS_PER_SEC) * NANOS_PER_SEC
            + (tn % NANOS_PER_SEC + d.nanos) + totalNanosList t
          = ts * NANOS_PER_SEC + tn + totalNanosList (d :: t) := by
        rw [htot]
        simp only [Duration.as_nanos, NANOS_PER_SEC]
        omega
      obtain ⟨ts2, tn2, he, hsum⟩ := ih (ts + d.secs + tn / NANOS_PER_SEC)
        (tn % NANOS_PER_SEC + d.nanos) (by rw [harg]; exact h)
      exact ⟨ts2, tn2, he, hsum.trans harg⟩

/-- `sum_durations` succeeds and computes the normalized grand total whenever
the grand total's second count fits in a u64. -/
theorem sum_durations_eq (l : List Duration)
    (h : totalNanosList l / NANOS_PER_SEC ≤ U64_MAX) :
    sum_durations l = some (Duration.from_nanos (totalNanosList l)) := by
  obtain ⟨ts2, tn2, he, hsum⟩ := sum_loop_general l 0 0
    (by simp only [Nat.zero_mul, Nat.zero_add]; exact h)
  simp only [Nat.zero_mul, Nat.zero_add] at hsum
  have hfin : ts2 + tn2 / NANOS_PER_SEC ≤ U64_MAX := by
    simp only [NANOS_PER_SEC, U64_MAX] at *
    omega
  simp only [sum_durations, he, u64CheckedAdd, if_pos hfin, Duration.from_nanos,
    Option.some.injEq, Duration.mk.injEq]
  simp only [NANOS_PER_SEC] at *
  omega

/-! ## Claims -/

/-- Claim C1: every `Duration` produced by a public constructor (`new`,
`from_secs`, `from_millis`, `from_micros`, `from_nanos`) or returned as the
success value of an arithmetic operation (`checked_add`, `checked_sub`,
`checked_mul`, `checked_div`, and the sequence summation; the `+`, `-`, `*`,
`/` operator forms and `Sum` are these checked operations followed by a fatal
`expect`, so their results coincide with the checked success values)
satisfies the canonical-form invariant `0 ≤ nanos < 1_000_000_000`, given
that the arithmetic inputs are themselves live (canonical) values. -/
theorem duration_canonical_invariant (s n k : Nat) (a b : Duration)
    (ha : a.nanos < NANOS_PER_SEC) (hb : b.nanos < NANOS_PER_SEC)
    (l : List Duration) :
    (∀ d, Duration.new s n = some d → d.nanos < NANOS_PER_SEC) ∧
    (Duration.from_secs s).nanos < NANOS_PER_SEC ∧
    (Duration.from_millis s).nanos < NANOS_PER_SEC ∧
    (Duration.from_micros s).nanos < NANOS_PER_SEC ∧
    (Duration.from_nanos s).nanos < NANOS_PER_SEC ∧
    (∀ c, a.checked_add b = some c → c.nanos < NANOS_PER_SEC) ∧
    (∀ c, a.checked_sub b = some c → c.nanos < NANOS_PER_SEC) ∧
    (∀ c, a.checked_mul k = some c → c.nanos < NANOS_PER_SEC) ∧
    (∀ c, a.checked_div k = some c → c.nanos < NANOS_PER_SEC) ∧
    (∀ c, sum_durations l = some c → c.nanos < NANOS_PER_SEC) := by
  refine ⟨?_, ?_, ?_, ?_, ?_, ?_, ?_, ?_, ?_, ?_⟩
  · intro d hd
    simp only [Duration.new] at hd
    split at hd
    · cases hd
      simp only [NANOS_PER_SEC]
      omega
    · cases hd
  · simp [Duration.from_secs, NANOS_PER_SEC]
  · simp only [Duration.from_millis, MILLIS_PER_SEC, NANOS_PER_MILLI, NANOS_PER_SEC]
    omega
  · simp only [Duration.from_micros, MICROS_PER_SEC, NANOS_PER_MICRO, NANOS_PER_SEC]
    omega
  · exact from_nanos_canonical s
  · intro c hc
    rw [checked_add_eq a b ha hb] at hc
    split at hc
    · cases hc
      exact from_nanos_canonical _
    · cases hc
  · intro c hc
    rw [checked_sub_eq a b ha hb] at hc
    split at hc
    · cases hc
      exact from_nanos_canonical _
    · cases hc
  · intro c hc
    rw [checked_mul_eq a k] at hc
    split at hc
    · cases hc
      exact from_nanos_canonical _
    · cases hc
  · intro c hc
    by_cases hk : k = 0
    · subst hk
      simp [Duration.checked_div] at hc
    · rw [checked_div_some a k hk] at hc
      cases hc
      exact checked_div_nanos_lt a k ha hk
  · intro c hc
    simp only [sum_durations] at hc
    split at hc
    · cases hc
    · split at hc
      · cases hc
      · cases hc
        simp only [NANOS_PER_SEC]
        omega

theorem duration_canonical_invariant_witness : (Duration.mk 0 3).nanos < NANOS_PER_SEC :=
  (duration_canonical_invariant 1 2 3 ⟨0, 1⟩ ⟨0, 2⟩ (by decide) (by decide)
    []).2.2.2.2.2.1 ⟨0, 3⟩ (by decide)

/-- Claim C2 counterexample: the claim asserts that adding `new(0, 1)` (one
nanosecond) to a duration of `u64::MAX` seconds and 0 nanoseconds overflows
and yields no value; on the code, the seconds sum is exactly `u64::MAX` and
the nanosecond sum is 1 (no carry), so `checked_add` succeeds with
`⟨u64::MAX, 1⟩`. -/
theorem checked_add_one_nano_max_secs :
    Duration.checked_add ⟨0, 1⟩ ⟨U64_MAX, 0⟩ = some ⟨U64_MAX, 1⟩ := by decide

/-- Claim C2 (amended): for canonical durations, `checked_add` returns `Some`
of the normalized exact sum (total nanoseconds add) whenever the sum's
whole-second count fits in a u64, and `None` otherwise; in particular adding
`new(1, 0)` — one second — to a duration of `u64::MAX` seconds and 0
nanoseconds overflows and yields no value. -/
theorem checked_add_exact (a b : Duration) (ha : a.nanos < NANOS_PER_SEC)
    (hb : b.nanos < NANOS_PER_SEC) :
    ((a.as_nanos + b.as_nanos) / NANOS_PER_SEC ≤ U64_MAX →
      ∃ c, a.checked_add b = some c ∧ c.as_nanos = a.as_nanos + b.as_nanos
        ∧ c.nanos < NANOS_PER_SEC) ∧
    (U64_MAX < (a.as_nanos + b.as_nanos) / NANOS_PER_SEC → a.checked_add b = none) ∧
    Duration.checked_add ⟨1, 0⟩ ⟨U64_MAX, 0⟩ = none := by
  refine ⟨?_, ?_, by decide⟩
  · intro h
    exact ⟨Duration.from_nanos (a.as_nanos + b.as_nanos),
      by rw [checked_add_eq a b ha hb, if_pos h],
      as_nanos_from_nanos _, from_nanos_canonical _⟩
  · intro h
    rw [checked_add_eq a b ha hb, if_neg (by omega)]

theorem checked_add_exact_witness :
    Duration.checked_add ⟨1, 0⟩ ⟨U64_MAX, 0⟩ = none :=
  (checked_add_exact ⟨5, 0⟩ ⟨0, 5⟩ (by decide) (by decide)).2.2

/-- Claim C3: for canonical durations, `checked_sub a b` is `None` exactly
when `b` exceeds `a` in total nanoseconds; on success the result's total
nanoseconds are the difference of the operands' totals. -/
theorem checked_sub_exact (a b : Duration) (ha : a.nanos < NANOS_PER_SEC)
    (hb : b.nanos < NANOS_PER_SEC) :
    (a.checked_sub b = none ↔ a.as_nanos < b.as_nanos) ∧
    (∀ c, a.checked_sub b = some c → c.as_nanos = a.as_nanos - b.as_nanos) := by
  constructor
  · constructor
    · intro hnone
      by_contra hge
      push_neg at hge
      rw [checked_sub_eq a b ha hb, if_pos hge] at hnone
      exact Option.noConfusion hnone
    · intro hlt
      rw [checked_sub_eq a b ha hb, if_neg (by omega)]
  · intro c hc
    by_cases h : b.as_nanos ≤ a.as_nanos
    · rw [checked_sub_eq a b ha hb, if_pos h] at hc
      cases hc
      exact as_nanos_from_nanos _
    · rw [checked_sub_eq a b ha hb, if_neg h] at hc
      cases hc

theorem checked_sub_exact_witness :
    (Duration.mk 2 3).as_nanos = (Duration.mk 3 5).as_nanos - (Duration.mk 1 2).as_nanos :=
  (checked_sub_exact ⟨3, 5⟩ ⟨1, 2⟩ (by decide) (by decide)).2 ⟨2, 3⟩ (by decide)

/-- Claim C4: `checked_div d n` returns `None` exactly when `n = 0`; for a
nonzero u32 divisor it always succeeds with seconds `d.secs / n` and
nanoseconds equal to the promoted seconds remainder `d.secs % n * 1e9 / n`
plus `d.nanos / n`; the result's nanosecond field is canonical (hence fits
u32), and the single intermediate product `carry * 1e9` stays within the u64
range. -/
theorem checked_div_spec (d : Duration) (n : Nat) (hd : d.nanos < NANOS_PER_SEC)
    (hn32 : n < U32_BOUND) :
    (d.checked_div n = none ↔ n = 0) ∧
    (n ≠ 0 →
      d.checked_div n
          = some ⟨d.secs / n, d.secs % n * NANOS_PER_SEC / n + d.nanos / n⟩ ∧
        d.secs % n * NANOS_PER_SEC ≤ U64_MAX ∧
        ∀ c, d.checked_div n = some c → c.nanos < NANOS_PER_SEC) := by
  constructor
  · constructor
    · intro hnone
      by_contra hne
      rw [checked_div_some d n hne] at hnone
      exact Option.noConfusion hnone
    · intro h0
      subst h0
      simp [Duration.checked_div]
  · intro hn
    refine ⟨(checked_div_some d n hn).trans (by rw [Nat.add_comm]), ?_, ?_⟩
    · have hr : d.secs % n ≤ 4294967294 := by
        have := Nat.mod_lt d.secs (Nat.pos_of_ne_zero hn)
        simp only [U32_BOUND] at hn32
        omega
      calc d.secs % n * NANOS_PER_SEC ≤ 4294967294 * NANOS_PER_SEC :=
            Nat.mul_le_mul_right _ hr
        _ ≤ U64_MAX := by decide
    · intro c hc
      rw [checked_div_some d n hn] at hc
      cases hc
      exact checked_div_nanos_lt d n hd hn

theorem checked_div_spec_witness :
    Duration.checked_div ⟨7, 3⟩ 2
      = some ⟨(Duration.mk 7 3).secs / 2,
          (Duration.mk 7 3).secs % 2 * NANOS_PER_SEC / 2 + (Duration.mk 7 3).nanos / 2⟩ :=
  ((checked_div_spec ⟨7, 3⟩ 2 (by decide) (by decide)).2 (by decide)).1

/-- Claim C5: for any duration and u32 scalar `k`, `checked_mul` returns
`Some` of the normalized exact product (total nanoseconds times `k`) whenever
the product's whole-second count fits in a u64, and `None` otherwise; in
particular multiplying by 0 yields `Some` of the zero duration. -/
theorem checked_mul_exact (d : Duration) (k : Nat) (_hk : k < U32_BOUND) :
    ((d.as_nanos * k) / NANOS_PER_SEC ≤ U64_MAX →
      ∃ c, d.checked_mul k = some c ∧ c.as_nanos = d.as_nanos * k
        ∧ c.nanos < NANOS_PER_SEC) ∧
    (U64_MAX < (d.as_nanos * k) / NANOS_PER_SEC → d.checked_mul k = none) ∧
    d.checked_mul 0 = some ⟨0, 0⟩ := by
  refine ⟨?_, ?_, ?_⟩
  · intro h
    exact ⟨Duration.from_nanos (d.as_nanos * k),
      by rw [checked_mul_eq d k, if_pos h],
      as_nanos_from_nanos _, from_nanos_canonical _⟩
  · intro h
    rw [checked_mul_eq d k, if_neg (by omega)]
  · rw [checked_mul_eq d 0]
    simp [Duration.from_nanos, NANOS_PER_SEC, U64_MAX]

theorem checked_mul_exact_witness :
    Duration.checked_mul ⟨1, 2⟩ 0 = some ⟨0, 0⟩ :=
  (checked_mul_exact ⟨1, 2⟩ 5 (by decide)).2.2

/-- Claim C6: the Debug rendering selects the unit suffix adaptively ("s"
when the whole-second count is nonzero, otherwise "ms" when the fractional
nanoseconds are at least 1,000,000, otherwise "µs" when at least 1,000,
otherwise "ns"), delegating the digits to `fmt_decimal`, which omits trailing
zeros by default, lets an optional precision cap or zero-pad the digits, and
rounds half-up on truncation with a carry that can reach the integer part;
concretely `new(0, 1234)` renders as "1.234µs" by default and
`new(5, 730023852)` with precision 2 as "5.73s" (the further concrete cases
exhibit trailing-zero omission, zero-padding, round-half-up, and the carry
into the integer part). -/
theorem debug_format_spec (p : Option Nat) (sp : Bool) (d : Duration) :
    (0 < d.secs →
      fmtDuration p sp d
        = (if sp then "+" else "") ++ fmt_decimal p d.secs d.nanos 100000000 ++ "s") ∧
    (d.secs = 0 → 1000000 ≤ d.nanos →
      fmtDuration p sp d
        = (if sp then "+" else "")
            ++ fmt_decimal p (d.nanos / 1000000) (d.nanos % 1000000) 100000 ++ "ms") ∧
    (d.secs = 0 → d.nanos < 1000000 → 1000 ≤ d.nanos →
      fmtDuration p sp d
        = (if sp then "+" else "")
            ++ fmt_decimal p (d.nanos / 1000) (d.nanos % 1000) 100 ++ "µs") ∧
    (d.secs = 0 → d.nanos < 1000 →
      fmtDuration p sp d
        = (if sp then "+" else "") ++ fmt_decimal p d.nanos 0 1 ++ "ns") ∧
    fmtDuration none false ⟨0, 1234⟩ = "1.234µs" ∧
    fmtDuration (some 2) false ⟨5, 730023852⟩ = "5.73s" ∧
    fmtDuration none false ⟨0, 2500000⟩ = "2.5ms" ∧
    fmtDuration (some 1) false ⟨0, 1250⟩ = "1.3µs" ∧
    fmtDuration (some 2) false ⟨1, 999000000⟩ = "2.00s" ∧
    fmtDuration (some 4) false ⟨0, 1234⟩ = "1.2340µs" := by
  refine ⟨?_, ?_, ?_, ?_, by decide, by decide, by decide, by decide, by decide, by decide⟩
  · intro h
    simp only [fmtDuration]
    rw [if_pos h]
  · intro h0 h1
    simp only [fmtDuration]
    rw [if_neg (by omega), if_pos h1]
  · intro h0 h1 h2
    simp only [fmtDuration]
    rw [if_neg (by omega), if_neg (by omega), if_pos h2]
  · intro h0 h1
    simp only [fmtDuration]
    rw [if_neg (by omega), if_neg (by omega), if_neg (by omega)]

theorem debug_format_spec_witness :
    fmtDuration none false ⟨3, 0⟩
      = (if false then "+" else "")
          ++ fmt_decimal none (Duration.mk 3 0).secs (Duration.mk 3 0).nanos 100000000
          ++ "s" :=
  (debug_format_spec none false ⟨3, 0⟩).1 (by decide)

/-- Claim C7: the lazily-carried `sum_durations` reduction yields the zero
duration on the empty sequence, and on any finite sequence of canonical
durations whose grand total's whole-second count fits in a u64 it returns
exactly the same result as the left fold of pairwise `checked_add` with a
per-step carry. -/
theorem sum_durations_spec (l : List Duration)
    (hl : ∀ d ∈ l, d.nanos < NANOS_PER_SEC)
    (h : totalNanosList l / NANOS_PER_SEC ≤ U64_MAX) :
    sum_durations [] = some ⟨0, 0⟩ ∧ sum_durations l = fold_add l := by
  refine ⟨by decide, ?_⟩
  have h0 : (Duration.mk 0 0).as_nanos = 0 := by
    simp [Duration.as_nanos]
  rw [sum_durations_eq l h]
  rw [show fold_add l
      = l.foldl (fun acc d => acc.bind fun x => x.checked_add d) (some ⟨0, 0⟩) from rfl]
  rw [fold_add_general l ⟨0, 0⟩ (by simp [NANOS_PER_SEC]) hl
    (by rw [h0, Nat.zero_add]; exact h), h0, Nat.zero_add]

theorem sum_durations_spec_witness :
    sum_durations [] = some ⟨0, 0⟩ ∧
      sum_durations [⟨1, 0⟩, ⟨2, 500000000⟩] = fold_add [⟨1, 0⟩, ⟨2, 500000000⟩] :=
  sum_durations_spec [⟨1, 0⟩, ⟨2, 500000000⟩] (by decide) (by decide)

/-- Claim C8: for canonical durations, `checked_add` is commutative, and
whenever `checked_add a b = some c`, subtracting `b` back recovers `a`:
`checked_sub c b = some a`. -/
theorem checked_add_comm_sub_cancel (a b : Duration) (ha : a.nanos < NANOS_PER_SEC)
    (hb : b.nanos < NANOS_PER_SEC) :
    a.checked_add b = b.checked_add a ∧
    (∀ c, a.checked_add b = some c → c.checked_sub b = some a) := by
  constructor
  · rw [checked_add_eq a b ha hb, checked_add_eq b a hb ha, Nat.add_comm]
  · intro c hc
    by_cases h : (a.as_nanos + b.as_nanos) / NANOS_PER_SEC ≤ U64_MAX
    · rw [checked_add_eq a b ha hb, if_pos h] at hc
      cases hc
      rw [checked_sub_eq (Duration.from_nanos (a.as_nanos + b.as_nanos)) b
        (from_nanos_canonical _) hb]
      rw [as_nanos_from_nanos]
      rw [if_pos (by omega : b.as_nanos ≤ a.as_nanos + b.as_nanos)]
      rw [Nat.add_sub_cancel, from_nanos_of_canonical a ha]
    · rw [checked_add_eq a b ha hb, if_neg h] at hc
      cases hc

theorem checked_add_comm_sub_cancel_witness :
    Duration.checked_sub ⟨4, 6⟩ ⟨3, 4⟩ = some ⟨1, 2⟩ :=
  (checked_add_comm_sub_cancel ⟨1, 2⟩ ⟨3, 4⟩ (by decide) (by decide)).2 ⟨4, 6⟩ (by decide)

/-- Claim C9: `from_nanos` inverts `as_nanos` on every canonical duration
whose total nanosecond count fits in the 64-bit input width of
`from_nanos`. -/
theorem from_nanos_round_trip (d : Duration) (hd : d.nanos < NANOS_PER_SEC)
    (_hfit : d.as_nanos ≤ U64_MAX) :
    Duration.from_nanos d.as_nanos = d :=
  from_nanos_of_canonical d hd

theorem from_nanos_round_trip_witness :
    Duration.from_nanos (Duration.mk 5 730023852).as_nanos = ⟨5, 730023852⟩ :=
  from_nanos_round_trip ⟨5, 730023852⟩ (by decide) (by decide)

/-- Claim C10: for a canonical duration and a nonzero u32 divisor,
`checked_div` succeeds and its result's total nanosecond count is either the
floored exact quotient of the dividend's total or exactly one below it
(the promoted seconds remainder and the nanosecond field are truncated
separately); concretely `⟨1, 2⟩ / 3` produces 333,333,333 total nanoseconds
while the floored exact quotient is 333,333,334. -/
theorem checked_div_truncation (d : Duration) (n : Nat) (_hd : d.nanos < NANOS_PER_SEC)
    (hn : n ≠ 0) (_hn32 : n < U32_BOUND) :
    (∃ c, d.checked_div n = some c ∧
      (c.as_nanos = d.as_nanos / n ∨ c.as_nanos = d.as_nanos / n - 1)) ∧
    Duration.checked_div ⟨1, 2⟩ 3 = some ⟨0, 333333333⟩ ∧
    (Duration.mk 1 2).as_nanos / 3 = 333333334 := by
  refine ⟨?_, by decide, by decide⟩
  exact ⟨_, checked_div_some d n hn, checked_div_as_nanos d n hn⟩

theorem checked_div_truncation_witness :
    Duration.checked_div ⟨1, 2⟩ 3 = some ⟨0, 333333333⟩ :=
  (checked_div_truncation ⟨1, 2⟩ 3 (by decide) (by decide) (by decide)).2.1
